import Mathlib

/-!
Verification development for the GitHub repository harvesting-and-enrichment
engine (`dataset_test/test2.py`, class `GitHubRepoFetcher`).

The Python source is shallowly embedded: each method becomes a Lean function
over explicit state; network calls are abstracted as oracles (functions from
page numbers / endpoints to responses); machine integers are `Nat`; fallible
code returns `Option` / `Except`.  The regular-expression engine used by
`matches_pattern` is abstracted: whether an item's name+description matches
each of the three pattern families is carried as a boolean attribute of the
item (the pattern lists themselves are opaque to every claim).
-/

/-- Python's `str.strip()` on the underlying character list: drop leading and
trailing whitespace.  (Lean's builtin `String.trim` is extensionally the same
but does not reduce inside the kernel, so the model spells it out.) -/
def pyStrip (s : String) : String :=
  String.mk (((s.data.dropWhile Char.isWhitespace).reverse.dropWhile
    Char.isWhitespace).reverse)

/-- One raw repository item as returned by the search endpoint.  Fields are
exactly those consulted by `is_legitimate_project` and the collection tasks.
`description` is `Option String` (`none` models JSON `null`); `hasLicense`
models the truthiness of the `license` field; the three `...Match` booleans
model `matches_pattern(name + " " + description, patterns)` for the three
pattern families (the regex engine is abstracted, see module comment). -/
structure Repo where
  full_name : String
  name : String
  description : Option String
  hasLicense : Bool
  stargazers_count : Nat
  forks_count : Nat
  watchers_count : Nat
  open_issues_count : Nat
  tutorialMatch : Bool
  portfolioMatch : Bool
  awesomeMatch : Bool
  deriving DecidableEq

/-- `GitHubRepoFetcher.is_legitimate_project` (test2.py:126-174).
Returns `(is_valid, reason_for_rejection)`.  The fork/star test is the exact
rational comparison `forks / stars > 2.0`, i.e. `forks > 2 * stars`
(`max_fork_star_ratio = 2.0`); thresholds: description length `20`, watcher
floor `2`, star thresholds `50` and `100`, fork floor `5`. -/
def is_legitimate_project (r : Repo) : Bool × Option String :=
  if r.hasLicense = false then (false, some ("No license"))
  else if r.description.getD ("") = ("") ∨
      (pyStrip (r.description.getD (""))).length < 20 then
    (false, some ("No meaningful description"))
  else if r.tutorialMatch then (false, some ("Tutorial/demo/example project"))
  else if r.portfolioMatch then (false, some ("Portfolio/personal project"))
  else if r.awesomeMatch then (false, some ("Curated list/awesome collection"))
  else if 0 < r.stargazers_count ∧ 2 * r.stargazers_count < r.forks_count then
    (false, some ("High fork/star ratio"))
  else if 50 < r.stargazers_count ∧ r.watchers_count < 2 then
    (false, some ("Low engagement (watchers)"))
  else if 100 < r.stargazers_count ∧ r.open_issues_count = 0 ∧ r.forks_count < 5 then
    (false, some ("Low engagement (no issues/forks)"))
  else (true, none)

/-- The rejection conditions exactly as the specification enumerates them. -/
def rejectConditions (r : Repo) : Prop :=
  r.hasLicense = false ∨
  (pyStrip (r.description.getD (""))).length < 20 ∨
  r.tutorialMatch = true ∨
  r.portfolioMatch = true ∨
  r.awesomeMatch = true ∨
  (0 < r.stargazers_count ∧ 2 * r.stargazers_count < r.forks_count) ∨
  (50 < r.stargazers_count ∧ r.watchers_count < 2) ∨
  (100 < r.stargazers_count ∧ r.open_issues_count = 0 ∧ r.forks_count < 5)

/-- Outcome of `GitHubRepoFetcher.fetch_page` (test2.py:192-236) for one page:
HTTP 200 yields the per-item-validated repos plus the filtered-out count;
HTTP 403 is the quota signal (`error: rate_limit`); any other status or a
raised exception yields a non-quota error result. -/
inductive PageRes where
  | ok (repos : List Repo) (filteredOut : Nat)
  | rateLimited
  | otherError
  deriving DecidableEq

/-- `fetch_page` given the remote response for that page: the HTTP status and
the raw `items` list.  Tier-2 filtering (`is_legitimate_project`) is applied
to every raw item; invalid items are counted and dropped. -/
def fetch_page (status : Nat) (raw : List Repo) : PageRes :=
  if status = 200 then
    PageRes.ok (raw.filter (fun r => (is_legitimate_project r).1))
      (raw.filter (fun r => (is_legitimate_project r).1 = false)).length
  else if status = 403 then PageRes.rateLimited
  else PageRes.otherError

/-- `max_pages = min((max_results + per_page - 1) // per_page, 10)` with
`per_page = 100` (test2.py:242). -/
def maxPagesFor (maxResults : Nat) : Nat :=
  min ((maxResults + 99) / 100) 10

/-- The batch starts `range(0, max_pages, batch_size)` with `batch_size = 5`
(test2.py:252-254). -/
def batchStarts (maxPages : Nat) : List Nat :=
  (List.range ((maxPages + 4) / 5)).map (fun i => i * 5)

/-- The page numbers of one batch:
`range(batch_start + 1, min(batch_start + 6, max_pages + 1))` (test2.py:255). -/
def batchPages (maxPages s : Nat) : List Nat :=
  List.range' (s + 1) (min (s + 5) maxPages - s)

/-- Result of the inner `for result in batch_results` loop of `search_repos`
(test2.py:282-299): either an early `return` out of the whole function, or
the updated accumulator. -/
inductive ProcOut where
  | early (res : Option (List Repo))
  | cont (acc : List Repo)
  deriving DecidableEq

/-- The inner results loop of `search_repos`, over the page results sorted by
page number: a `rate_limit` failure returns `None` for the whole query, any
other failure is skipped, an empty (post-validation) page returns
`repos[:max_results]`, otherwise the page's repos are appended. -/
def processResults (maxResults : Nat) (acc : List Repo) : List PageRes → ProcOut
  | [] => ProcOut.cont acc
  | PageRes.rateLimited :: _ => ProcOut.early none
  | PageRes.otherError :: rest => processResults maxResults acc rest
  | PageRes.ok items _ :: rest =>
    if items = [] then ProcOut.early (some (acc.take maxResults))
    else processResults maxResults (acc ++ items) rest

/-- The batch loop of `search_repos` (test2.py:254-309), abstracted over the
quota gate (`wait_for_rate_limit`, indexed by batch start) and the page fetch
oracle.  Returns the query result together with the log of requested page
numbers.  Before each batch the gate runs; `False` returns `None` without
fetching.  All pages of an entered batch are fetched (concurrently in the
source, re-sorted by page number before processing).  After a batch,
`len(repos) >= max_results` breaks out and the collected list is truncated. -/
def runBatches (gate : Nat → Bool) (fetch : Nat → PageRes)
    (maxResults maxPages : Nat) (acc : List Repo) :
    List Nat → Option (List Repo) × List Nat
  | [] => (some (acc.take maxResults), [])
  | s :: rest =>
    if gate s = false then (none, [])
    else
      let pages := batchPages maxPages s
      match processResults maxResults acc (pages.map fetch) with
      | ProcOut.early res => (res, pages)
      | ProcOut.cont acc2 =>
        if maxResults ≤ acc2.length then (some (acc2.take maxResults), pages)
        else
          let out := runBatches gate fetch maxResults maxPages acc2 rest
          (out.1, pages ++ out.2)

/-- `GitHubRepoFetcher.search_repos` (test2.py:238-309): the full query run,
returning `(result, requested page numbers)`. -/
def search_repos (gate : Nat → Bool) (fetch : Nat → PageRes)
    (maxResults : Nat) : Option (List Repo) × List Nat :=
  runBatches gate fetch maxResults (maxPagesFor maxResults) []
    (batchStarts (maxPagesFor maxResults))

/-- The seven collection-task shapes that ingest repos into `all_repos`
(test2.py: `fetch_top_repos`, `fetch_gsoc_repos`, `fetch_hacktoberfest_repos`,
`fetch_repos_by_topics`, `fetch_repos_by_languages`,
`fetch_good_first_issue_repos`, `fetch_underrated_repos`). -/
inductive FetchTask where
  | top
  | gsoc
  | hacktoberfest
  | topic (t : String)
  | language (l : String)
  | goodFirstIssue
  | underrated
  deriving DecidableEq

/-- The provenance tag each task appends to an entry's `source` list. -/
def taskTag : FetchTask → String
  | FetchTask.top => ("top_starred")
  | FetchTask.gsoc => ("gsoc")
  | FetchTask.hacktoberfest => ("hacktoberfest")
  | FetchTask.topic t => ("topic_") ++ t
  | FetchTask.language l => ("language_") ++ l
  | FetchTask.goodFirstIssue => ("good_first_issue")
  | FetchTask.underrated => ("underrated")

/-- Whether the task's else-branch guards the `source.append` with a
membership test.  `top` (test2.py:334), `topic` (test2.py:444) and
`language` (test2.py:482) append unconditionally; the other four check
`tag not in source` first. -/
def taskChecked : FetchTask → Bool
  | FetchTask.top => false
  | FetchTask.topic _ => false
  | FetchTask.language _ => false
  | _ => true

/-- `is_underrated = stars < 2000 and (forks > 20 or watchers > 50)`
(test2.py:556). -/
def derivedUnderrated (r : Repo) : Bool :=
  decide (r.stargazers_count < 2000) &&
    (decide (20 < r.forks_count) || decide (50 < r.watchers_count))

/-- One `all_repos[full_name]` value: the `source` tag list, the boolean
facet flags, the accumulated `topics`/`languages` lists and the raw payload
kept from the first ingestion.  A missing dictionary key is the default
(`False` / `[]`), matching every `.get(...)` read in the source. -/
structure RepoEntry where
  source : List String
  is_gsoc : Bool
  is_hacktoberfest : Bool
  has_good_first_issues : Bool
  is_underrated : Bool
  topics : List String
  languages : List String
  raw_data : Repo
  deriving DecidableEq

/-- Append `t` to `l`, guarded by a membership test when `checked`: the two
`source.append` shapes (and the `topics`/`languages` appends, which are
always guarded). -/
def pushTag (checked : Bool) (t : String) (l : List String) : List String :=
  if checked = true ∧ t ∈ l then l else l ++ [t]

/-- The entry before any ingestion touched it (every flag absent, `raw_data`
about to be set by the first ingestion). -/
def emptyEntry (r : Repo) : RepoEntry :=
  { source := [], is_gsoc := false, is_hacktoberfest := false,
    has_good_first_issues := false, is_underrated := false,
    topics := [], languages := [], raw_data := r }

/-- The per-task update of an existing `all_repos` entry (the `else` branches
of the seven ingest loops); applying it to `emptyEntry r` is exactly the
`if full_name not in self.all_repos` insert branch of each loop. -/
def touchEntry (t : FetchTask) (r : Repo) (e : RepoEntry) : RepoEntry :=
  match t with
  | FetchTask.top =>
    { e with source := pushTag false (taskTag FetchTask.top) e.source }
  | FetchTask.gsoc =>
    { e with source := pushTag true (taskTag FetchTask.gsoc) e.source,
             is_gsoc := true }
  | FetchTask.hacktoberfest =>
    { e with source := pushTag true (taskTag FetchTask.hacktoberfest) e.source,
             is_hacktoberfest := true }
  | FetchTask.topic tp =>
    { e with source := pushTag false (taskTag (FetchTask.topic tp)) e.source,
             topics := pushTag true tp e.topics }
  | FetchTask.language lg =>
    { e with source := pushTag false (taskTag (FetchTask.language lg)) e.source,
             languages := pushTag true lg e.languages }
  | FetchTask.goodFirstIssue =>
    { e with source := pushTag true (taskTag FetchTask.goodFirstIssue) e.source,
             has_good_first_issues := true }
  | FetchTask.underrated =>
    { e with source := pushTag true (taskTag FetchTask.underrated) e.source,
             is_underrated := derivedUnderrated r }

/-- One `(task, repo)` arrival at the aggregator. -/
structure Ingestion where
  task : FetchTask
  repo : Repo
  deriving DecidableEq

/-- The `all_repos` dictionary, keyed by `full_name`. -/
def AggMap : Type := String → Option RepoEntry

/-- The empty `all_repos`. -/
def emptyAgg : AggMap := fun _ => none

/-- Ingest one repo under one task: insert a fresh entry when the key is
absent, otherwise update the existing entry (the body of each task's
`for repo in repos` loop). -/
def ingestOne (m : AggMap) (i : Ingestion) : AggMap :=
  fun k =>
    if k = i.repo.full_name then
      some (touchEntry i.task i.repo
        (match m i.repo.full_name with
         | none => emptyEntry i.repo
         | some e => e))
    else m k

/-- The `progress_state['completed_tasks']` list (test2.py:63-87). -/
structure TaskState where
  completed : List String
  deriving DecidableEq

/-- `GitHubRepoFetcher.is_task_complete` (test2.py:85-87). -/
def is_task_complete (st : TaskState) (task_name : String) : Bool :=
  st.completed.contains task_name

/-- `GitHubRepoFetcher.mark_task_complete` (test2.py:79-83): append once (the
`save_state` persistence call it makes is modelled separately, see the
checkpoint model below). -/
def mark_task_complete (st : TaskState) (task_name : String) : TaskState :=
  if st.completed.contains task_name then st
  else { completed := st.completed ++ [task_name] }

/-- `GitHubRepoFetcher.fetch_top_repos` (test2.py:311-339) given the result of
its `search_repos` call: skip when already complete; on `None` return `False`
without marking; otherwise ingest every repo under the `top_starred` tag,
mark the task complete and return `True`.  (The two persistence writes are
the checkpoint model's steps.)  Returns `(return value, task state,
all_repos)`. -/
def fetch_top_repos (st : TaskState) (m : AggMap)
    (searchRes : Option (List Repo)) : Bool × TaskState × AggMap :=
  if is_task_complete st ("top_repos") then (true, st, m)
  else
    match searchRes with
    | none => (false, st, m)
    | some repos =>
      (true, mark_task_complete st ("top_repos"),
        repos.foldl (fun mm r => ingestOne mm { task := FetchTask.top, repo := r }) m)

/-- Whether a page result lets the inner results loop keep going past it:
a successful page with at least one surviving item, or a non-quota error
(which is skipped). -/
def pagePasses : PageRes → Bool
  | PageRes.ok items _ => decide (items ≠ [])
  | PageRes.rateLimited => false
  | PageRes.otherError => true

/-- The items a page result contributes to the accumulator. -/
def pageItems : PageRes → List Repo
  | PageRes.ok items _ => items
  | _ => []

/-- Total contribution of a list of page results, in order. -/
def contrib : List PageRes → List Repo
  | [] => []
  | r :: rest => pageItems r ++ contrib rest

/-- Always-permitting quota gate (plenty of remaining quota). -/
def gateTrue : Nat → Bool := fun _ => true

/-- A concrete item that passes `is_legitimate_project`. -/
def repoA : Repo :=
  { full_name := ("alice/alpha"), name := ("alpha"),
    description := some ("a serious project with a real description"),
    hasLicense := true, stargazers_count := 100, forks_count := 30,
    watchers_count := 60, open_issues_count := 4,
    tutorialMatch := false, portfolioMatch := false, awesomeMatch := false }

/-- A concrete item that fails `is_legitimate_project` (no license). -/
def repoBad : Repo :=
  { full_name := ("bob/beta"), name := ("beta"),
    description := some ("another project with a real description"),
    hasLicense := false, stargazers_count := 40, forks_count := 4,
    watchers_count := 9, open_issues_count := 2,
    tutorialMatch := false, portfolioMatch := false, awesomeMatch := false }

/-- Page oracle for the `C10` witness: page 1 succeeds with one valid item,
page 2 is a 200 response whose only raw item fails validation. -/
def fetchC10 : Nat → PageRes :=
  fun n => if n = 1 then PageRes.ok [repoA] 0 else fetch_page 200 [repoBad]

/-- Page oracle for the `C2` counterexample: page 1 succeeds but contributes
zero items, page 2 reports quota exhaustion. -/
def fetchC2 : Nat → PageRes :=
  fun n => if n = 1 then PageRes.ok [] 0 else PageRes.rateLimited

/-- Page oracle for the `C2` amended witness: page 1 succeeds with one item,
page 2 reports quota exhaustion. -/
def fetchC2W : Nat → PageRes :=
  fun n => if n = 1 then PageRes.ok [repoA] 0 else PageRes.rateLimited

/-- Two `all_repos` entries that agree everywhere except possibly in the
order of their `source`, `topics` and `languages` lists. -/
def entryEquiv (e1 e2 : RepoEntry) : Prop :=
  e1.source.Perm e2.source ∧ e1.topics.Perm e2.topics ∧
  e1.languages.Perm e2.languages ∧ e1.is_gsoc = e2.is_gsoc ∧
  e1.is_hacktoberfest = e2.is_hacktoberfest ∧
  e1.has_good_first_issues = e2.has_good_first_issues ∧
  e1.is_underrated = e2.is_underrated ∧ e1.raw_data = e2.raw_data

/-- Marker for the task that sets `is_gsoc`. -/
def derivesGsoc : FetchTask → Bool
  | FetchTask.gsoc => true
  | _ => false

/-- Marker for the task that sets `is_hacktoberfest`. -/
def derivesHack : FetchTask → Bool
  | FetchTask.hacktoberfest => true
  | _ => false

/-- Marker for the task that sets `has_good_first_issues`. -/
def derivesGfi : FetchTask → Bool
  | FetchTask.goodFirstIssue => true
  | _ => false

/-- Marker for the task that derives and writes `is_underrated`. -/
def derivesUnd : FetchTask → Bool
  | FetchTask.underrated => true
  | _ => false

/-- The `topics` list update performed by a task (only topic tasks touch it). -/
def topicsUpd : FetchTask → List String → List String
  | FetchTask.topic tp, l => pushTag true tp l
  | _, l => l

/-- The `languages` list update performed by a task. -/
def languagesUpd : FetchTask → List String → List String
  | FetchTask.language lg, l => pushTag true lg l
  | _, l => l

/-- Lift `entryEquiv` to optional entries (absent keys must agree). -/
def optEquiv : Option RepoEntry → Option RepoEntry → Prop
  | none, none => True
  | some e1, some e2 => entryEquiv e1 e2
  | _, _ => False

/-- Two aggregator maps that agree at every key up to `entryEquiv`. -/
def mapEquiv (m1 m2 : AggMap) : Prop := ∀ k, optEquiv (m1 k) (m2 k)

/-- Ingestion of `repoA` by the top-starred task. -/
def ingTopA : Ingestion := { task := FetchTask.top, repo := repoA }

/-- Ingestion of `repoA` by the GSoC task. -/
def ingGsocA : Ingestion := { task := FetchTask.gsoc, repo := repoA }

/-- The aggregator entry for one entity after a sequence of tasks ingest it
(every ingestion carries the same entity). -/
def aggAfter (e : Repo) (ts : List FetchTask) : Option RepoEntry :=
  ((ts.map (fun t => ({ task := t, repo := e } : Ingestion))).foldl
    ingestOne emptyAgg) e.full_name

/-- The evolution of one entity's entry under a sequence of same-key
ingestions. -/
def entryFold (e : Repo) : Option RepoEntry → List FetchTask → Option RepoEntry
  | o, [] => o
  | o, t :: ts =>
    entryFold e (some (touchEntry t e (o.getD (emptyEntry e)))) ts

/-- The two durable artifacts of the collection phase: the completed-task
list persisted in `fetcher_state.json` and the set of repository keys
persisted in `github_repos_raw.json`. -/
structure Stores where
  stateTasks : List String
  dataRepos : List String
  deriving DecidableEq

/-- The persistence steps at the end of `fetch_top_repos` (test2.py:337-338),
in program order: first `mark_task_complete` (which calls `save_state`,
writing the completion mark durably), then `save_current_data` (writing the
in-memory `all_repos` keys to the data file). -/
def topTaskPersistSteps (allRepoKeys : List String) : List (Stores → Stores) :=
  [fun s => { s with stateTasks :=
      if s.stateTasks.contains ("top_repos") then s.stateTasks
      else s.stateTasks ++ [("top_repos")] },
   fun s => { s with dataRepos := allRepoKeys }]

/-- The durable state a fresh process observes when the run crashed after the
first `n` persistence steps. -/
def persistUpTo (steps : List (Stores → Stores)) (n : Nat) (s : Stores) :
    Stores :=
  (steps.take n).foldl (fun st f => f st) s

/-- One JSON write to disk: `writeOk = false` models an I/O error. -/
def writeJson (writeOk : Bool) : Except String Unit :=
  if writeOk then Except.ok () else Except.error ("IOError")

/-- `GitHubRepoFetcher.save_state` (test2.py:71-77): the write is wrapped in
`try/except Exception` which only prints — a failed checkpoint-state write is
swallowed and control returns normally. -/
def save_state (writeOk : Bool) : Except String Unit :=
  match writeJson writeOk with
  | Except.ok _ => Except.ok ()
  | Except.error _ => Except.ok ()

/-- `GitHubRepoFetcher.save_current_data` (test2.py:574-598): returns early
when `all_repos` is empty; otherwise the write is unguarded, so an I/O error
propagates out of the function (aborting the run). -/
def save_current_data (hasRepos : Bool) (writeOk : Bool) : Except String Unit :=
  if hasRepos = false then Except.ok ()
  else writeJson writeOk

/-- The remote quota endpoint's behaviour for one `check_rate_limit` call:
HTTP 200 with a remaining count, a non-200 status, or a raised exception. -/
inductive RateResp where
  | ok (remaining : Nat)
  | httpErr
  | exc
  deriving DecidableEq

/-- The Python return value of `check_rate_limit`: the literal `False` or an
int (`wait_for_rate_limit` distinguishes them with `is False`). -/
inductive CheckRet where
  | boolFalse
  | intVal (n : Nat)
  deriving DecidableEq

/-- `GitHubRepoFetcher.check_rate_limit` (test2.py:89-109): on HTTP 200 the
cached count is refreshed and `False` is returned exactly when the refreshed
count is below 5; a non-200 status returns the int `0` without refreshing;
an exception returns the old cached count.  Result: (new cache, return). -/
def check_rate_limit (cached : Nat) (resp : RateResp) : Nat × CheckRet :=
  match resp with
  | RateResp.ok n =>
    if n < 5 then (n, CheckRet.boolFalse) else (n, CheckRet.intVal n)
  | RateResp.httpErr => (cached, CheckRet.intVal 0)
  | RateResp.exc => (cached, CheckRet.intVal cached)

/-- `GitHubRepoFetcher.wait_for_rate_limit` (test2.py:111-117): refresh via
`check_rate_limit` only when the cached count is below 10, and stop
(`return False`) exactly when the refresh returned the literal `False`
(`result is False` is false for the int `0`).  Result:
(new cache, continue?, refresh happened?). -/
def wait_for_rate_limit (cached : Nat) (resp : RateResp) : Nat × Bool × Bool :=
  if cached < 10 then
    match check_rate_limit cached resp with
    | (c, CheckRet.boolFalse) => (c, false, true)
    | (c, CheckRet.intVal _) => (c, true, true)
  else (cached, true, false)

/-- The payload of the per-repo `details` endpoint, reduced to the fields
`enrich_repo_data_single` extracts (the full payload is kept as
`detailed_info`, modelled by this record itself). -/
structure DetailsData where
  language : Option String
  license : Option String
  topics : List String
  deriving DecidableEq

/-- The payload of the `readme` endpoint.  `decodedContent` is `some text`
exactly when the response carried non-empty base64 `content` that decoded
successfully (the base64 machinery itself is abstracted). -/
structure ReadmeData where
  download_url : Option String
  name : Option String
  decodedContent : Option String
  deriving DecidableEq

/-- The three concurrent sub-fetches of `enrich_repo_data_single`
(test2.py:687-710): `none` models `fetch_endpoint` returning `(name, None)`
— an HTTP 403 (quota exhausted), another error status, or an exception. -/
structure SubFetches where
  details : Option DetailsData
  languages : Option (List (String × Nat))
  readme : Option ReadmeData
  deriving DecidableEq

/-- The assembled `enriched` dict: each field is `none` when its key was
never written (its sub-fetch came back `None` and was skipped). -/
structure Enriched where
  detailed_info : Option DetailsData
  primary_language : Option (Option String)
  license : Option (Option String)
  topics : Option (List String)
  languages_breakdown : Option (List (String × Nat))
  readme_url : Option (Option String)
  readme_name : Option (Option String)
  readme_content : Option String
  deriving DecidableEq

/-- `GitHubRepoFetcher.enrich_repo_data_single` (test2.py:681-735): `None`
exactly when the entry quota gate (`wait_for_rate_limit`) says stop;
otherwise each sub-result that arrived populates its fields and each
`None` sub-result leaves its fields absent. -/
def enrich_repo_data_single (gateOk : Bool) (f : SubFetches) :
    Option Enriched :=
  if gateOk = false then none
  else some
    { detailed_info := f.details,
      primary_language := f.details.map DetailsData.language,
      license := f.details.map DetailsData.license,
      topics := f.details.map DetailsData.topics,
      languages_breakdown := f.languages,
      readme_url := f.readme.map ReadmeData.download_url,
      readme_name := f.readme.map ReadmeData.name,
      readme_content := f.readme.bind ReadmeData.decodedContent }

/-- How the enrichment loop ended: a rate-limit stop (progress saved, control
returned) or natural completion. -/
inductive RunEnd where
  | rateStop
  | finished
  deriving DecidableEq

/-- The enrichment loop of `enrich_all_repos` (test2.py:799-841) over the
entities in processing order, with each one's gate answer and sub-fetch
responses: a `None` from `enrich_repo_data_single` persists the
enriched-so-far map and returns control; otherwise the record is attached
and the loop continues.  Returns the map persisted at the end and how the
run ended.  (Batch boundaries only add intermediate checkpoints of the same
map; they do not change which entities are processed.) -/
def enrich_all_repos :
    List (String × Bool × SubFetches) → List (String × Enriched) →
    List (String × Enriched) × RunEnd
  | [], acc => (acc, RunEnd.finished)
  | (nm, g, f) :: rest, acc =>
    match enrich_repo_data_single g f with
    | none => (acc, RunEnd.rateStop)
    | some en => enrich_all_repos rest (acc ++ [(nm, en)])

/-- A repo whose three sub-fetches all report quota exhaustion. -/
def allExhausted : SubFetches :=
  { details := none, languages := none, readme := none }

/-- A successful details/languages response (readme exhausted). -/
def detailsEx : DetailsData :=
  { language := some ("Python"), license := some ("MIT"),
    topics := [("ml")] }

def subOkDetails : SubFetches :=
  { details := some detailsEx,
    languages := some [(("Python"), 1000)], readme := none }

theorem pyStrip_empty : pyStrip ("") = ("") := by decide

theorem descCond_iff (d : String) :
    (d = ("") ∨ (pyStrip d).length < 20) ↔ (pyStrip d).length < 20 := by
  constructor
  · rintro (h | h)
    · subst h; decide
    · exact h
  · exact Or.inr

set_option maxHeartbeats 1600000 in
/-- **C9.** `is_legitimate_project` rejects exactly the items satisfying one of
the enumerated conditions; every accepted item satisfies none of them, and a
reason accompanies exactly the rejections. -/
theorem C9_is_legitimate_project_characterization (r : Repo) :
    ((is_legitimate_project r).1 = false ↔ rejectConditions r) ∧
    ((is_legitimate_project r).2 = none ↔ (is_legitimate_project r).1 = true) := by
  constructor
  · simp only [is_legitimate_project, rejectConditions]
    split_ifs with h1 h2 h3 h4 h5 h6 h7 h8
    · simp; tauto
    · have h2' := (descCond_iff _).mp h2
      simp at *; tauto
    · simp; tauto
    · simp; tauto
    · simp; tauto
    · simp; tauto
    · simp; tauto
    · simp; tauto
    · have h2' : ¬ (pyStrip (r.description.getD (""))).length < 20 :=
        fun h => h2 (Or.inr h)
      simp at *; tauto
  · simp only [is_legitimate_project]
    split_ifs <;> simp

/-- Closed instance of `C9_is_legitimate_project_characterization` at a
concrete item (no license, long description). -/
theorem C9_witness :
    ((is_legitimate_project
        { full_name := ("o/r"), name := ("r"),
          description := some ("a genuinely long project description here"),
          hasLicense := false, stargazers_count := 60, forks_count := 10,
          watchers_count := 5, open_issues_count := 3,
          tutorialMatch := false, portfolioMatch := false,
          awesomeMatch := false }).1 = false ↔
      rejectConditions
        { full_name := ("o/r"), name := ("r"),
          description := some ("a genuinely long project description here"),
          hasLicense := false, stargazers_count := 60, forks_count := 10,
          watchers_count := 5, open_issues_count := 3,
          tutorialMatch := false, portfolioMatch := false,
          awesomeMatch := false }) :=
  (C9_is_legitimate_project_characterization _).1

theorem processResults_early_some_len (maxr : Nat) :
    ∀ rs acc l, processResults maxr acc rs = ProcOut.early (some l) →
      l.length ≤ maxr := by
  intro rs
  induction rs with
  | nil => intro acc l h; simp [processResults] at h
  | cons r rest ih =>
    intro acc l h
    cases r with
    | rateLimited => simp [processResults] at h
    | otherError => exact ih acc l h
    | ok items f =>
      by_cases hi : items = []
      · simp only [processResults, if_pos hi, ProcOut.early.injEq,
          Option.some.injEq] at h
        subst h
        rw [List.length_take]
        exact min_le_left _ _
      · simp only [processResults, if_neg hi] at h
        exact ih (acc ++ items) l h

theorem runBatches_some_len (gate : Nat → Bool) (fetch : Nat → PageRes)
    (maxr maxPages : Nat) :
    ∀ starts acc l,
      (runBatches gate fetch maxr maxPages acc starts).1 = some l →
      l.length ≤ maxr := by
  intro starts
  induction starts with
  | nil =>
    intro acc l h
    simp only [runBatches] at h
    cases h
    rw [List.length_take]; exact min_le_left _ _
  | cons s rest ih =>
    intro acc l h
    simp only [runBatches] at h
    by_cases hg : gate s = false
    · rw [if_pos hg] at h; cases h
    · rw [if_neg hg] at h
      cases hp : processResults maxr acc ((batchPages maxPages s).map fetch) with
      | early res =>
        rw [hp] at h
        dsimp only at h
        subst h
        exact processResults_early_some_len maxr _ _ _ hp
      | cont acc2 =>
        rw [hp] at h
        dsimp only at h
        by_cases hl : maxr ≤ acc2.length
        · rw [if_pos hl] at h
          dsimp only at h
          cases h
          rw [List.length_take]; exact min_le_left _ _
        · rw [if_neg hl] at h
          dsimp only at h
          exact ih acc2 l h

theorem runBatches_req_len (gate : Nat → Bool) (fetch : Nat → PageRes)
    (maxr maxPages : Nat) :
    ∀ starts acc,
      (runBatches gate fetch maxr maxPages acc starts).2.length ≤
        (starts.map (fun s => (batchPages maxPages s).length)).sum := by
  intro starts
  induction starts with
  | nil => intro acc; simp [runBatches]
  | cons s rest ih =>
    intro acc
    simp only [runBatches, List.map_cons, List.sum_cons]
    by_cases hg : gate s = false
    · simp [hg]
    · rw [if_neg hg]
      cases hp : processResults maxr acc ((batchPages maxPages s).map fetch) with
      | early res => simp
      | cont acc2 =>
        dsimp only
        by_cases hl : maxr ≤ acc2.length
        · simp [hl]
        · rw [if_neg hl]
          dsimp only
          simp only [List.length_append]
          exact Nat.add_le_add_left (ih acc2) _

theorem batchPages_total : ∀ m, m < 11 →
    ((batchStarts m).map (fun s => (batchPages m s).length)).sum = m := by
  decide

theorem maxPagesFor_le : ∀ maxResults, maxPagesFor maxResults ≤ 10 :=
  fun _ => min_le_right _ _

/-- **C5.** For every `max_results` (the model is a total function, so every
query terminates), `search_repos` requests at most 10 pages in total and, when
it returns a list, that list is the collected list truncated to
`max_results`, hence has at most `max_results` items.  The last two conjuncts
record the boundary instances: a query for 1 result uses 1 page, a query for
50,000 results uses the 10-page ceiling. -/
theorem C5_search_repos_bounds (gate : Nat → Bool) (fetch : Nat → PageRes)
    (maxResults : Nat) :
    ((search_repos gate fetch maxResults).1.getD []).length ≤ maxResults ∧
    (search_repos gate fetch maxResults).2.length ≤ 10 ∧
    maxPagesFor 1 = 1 ∧ maxPagesFor 50000 = 10 := by
  refine ⟨?_, ?_, by decide, by decide⟩
  · cases h : (search_repos gate fetch maxResults).1 with
    | none => simp
    | some l =>
      simp only [Option.getD_some]
      exact runBatches_some_len gate fetch maxResults (maxPagesFor maxResults)
        _ _ l h
  · calc (search_repos gate fetch maxResults).2.length
        ≤ ((batchStarts (maxPagesFor maxResults)).map
            (fun s => (batchPages (maxPagesFor maxResults) s).length)).sum :=
          runBatches_req_len gate fetch maxResults (maxPagesFor maxResults) _ []
      _ = maxPagesFor maxResults :=
          batchPages_total _ (Nat.lt_succ_of_le (maxPagesFor_le maxResults))
      _ ≤ 10 := maxPagesFor_le maxResults

theorem processResults_rateLimited (maxr : Nat) :
    ∀ pre acc post, (∀ p ∈ pre, pagePasses p = true) →
      processResults maxr acc (pre ++ PageRes.rateLimited :: post) =
        ProcOut.early none := by
  intro pre
  induction pre with
  | nil => intro acc post _; simp [processResults]
  | cons r rest ih =>
    intro acc post hpre
    have hr : pagePasses r = true := hpre r (List.mem_cons_self r rest)
    have hrest : ∀ p ∈ rest, pagePasses p = true :=
      fun p hp => hpre p (List.mem_cons_of_mem r hp)
    cases r with
    | rateLimited => simp [pagePasses] at hr
    | otherError =>
      simp only [List.cons_append, processResults]
      exact ih acc post hrest
    | ok items f =>
      have hi : items ≠ [] := by simpa [pagePasses] using hr
      simp only [List.cons_append, processResults, if_neg hi]
      exact ih (acc ++ items) post hrest

theorem processResults_emptyPage (maxr : Nat) :
    ∀ pre acc post f, (∀ p ∈ pre, pagePasses p = true) →
      processResults maxr acc (pre ++ PageRes.ok [] f :: post) =
        ProcOut.early (some ((acc ++ contrib pre).take maxr)) := by
  intro pre
  induction pre with
  | nil =>
    intro acc post f _
    simp [processResults, contrib]
  | cons r rest ih =>
    intro acc post f hpre
    have hr : pagePasses r = true := hpre r (List.mem_cons_self r rest)
    have hrest : ∀ p ∈ rest, pagePasses p = true :=
      fun p hp => hpre p (List.mem_cons_of_mem r hp)
    cases r with
    | rateLimited => simp [pagePasses] at hr
    | otherError =>
      simp only [List.cons_append, processResults, contrib, pageItems,
        List.nil_append]
      exact ih acc post f hrest
    | ok items g =>
      have hi : items ≠ [] := by simpa [pagePasses] using hr
      simp only [List.cons_append, processResults, if_neg hi, contrib,
        pageItems, ← List.append_assoc]
      exact ih (acc ++ items) post f hrest

/-- A 200-status page whose raw items all fail `is_legitimate_project` comes
back as a success with an empty validated list and every raw item counted as
filtered out. -/
theorem fetch_page_all_invalid (raw : List Repo)
    (h : ∀ r ∈ raw, (is_legitimate_project r).1 = false) :
    fetch_page 200 raw = PageRes.ok [] raw.length := by
  unfold fetch_page
  rw [if_pos rfl]
  congr 1
  · exact List.filter_eq_nil_iff.mpr (fun a ha => by simp [h a ha])
  · rw [List.filter_eq_self.mpr (fun a ha => by simp [h a ha])]

theorem runBatches_step_early (gate : Nat → Bool) (fetch : Nat → PageRes)
    (maxr maxPages s : Nat) (rest : List Nat) (acc : List Repo)
    (res : Option (List Repo))
    (hg : gate s = true)
    (hp : processResults maxr acc ((batchPages maxPages s).map fetch) =
      ProcOut.early res) :
    runBatches gate fetch maxr maxPages acc (s :: rest) =
      (res, batchPages maxPages s) := by
  simp only [runBatches]
  rw [if_neg (by simp [hg]), hp]

/-- **C10.** Whenever `search_repos` processes a fetched page whose raw items
are non-empty but all fail `is_legitimate_project` (so the page contributes
zero items), and every earlier page result of that batch passed through, the
whole query terminates early with only the items collected before that page
(truncated to `max_results`) — whatever the later pages of the batch and the
remaining batches would have yielded. -/
theorem C10_invalid_page_short_circuits (gate : Nat → Bool)
    (fetch : Nat → PageRes) (maxr maxPages s : Nat) (rest : List Nat)
    (acc : List Repo) (pre post : List PageRes) (raw : List Repo)
    (hg : gate s = true)
    (hsplit : (batchPages maxPages s).map fetch =
      pre ++ fetch_page 200 raw :: post)
    (hraw : raw ≠ [])
    (hinv : ∀ r ∈ raw, (is_legitimate_project r).1 = false)
    (hpre : ∀ p ∈ pre, pagePasses p = true) :
    (runBatches gate fetch maxr maxPages acc (s :: rest)).1 =
      some ((acc ++ contrib pre).take maxr) := by
  have hp : processResults maxr acc ((batchPages maxPages s).map fetch) =
      ProcOut.early (some ((acc ++ contrib pre).take maxr)) := by
    rw [hsplit, fetch_page_all_invalid raw hinv]
    exact processResults_emptyPage maxr pre acc post raw.length hpre
  rw [runBatches_step_early gate fetch maxr maxPages s rest acc _ hg hp]

/-- Closed instance of `C10_invalid_page_short_circuits`: a two-page batch
whose second page is raw-non-empty but validation-empty returns just the
first page's item. -/
theorem C10_witness :
    (runBatches gateTrue fetchC10 200 2 [] (0 :: [])).1 =
      some (([] ++ contrib [PageRes.ok [repoA] 0]).take 200) :=
  C10_invalid_page_short_circuits gateTrue fetchC10 200 2 0 [] []
    [PageRes.ok [repoA] 0] [] [repoBad] rfl (by decide) (by decide)
    (by decide) (by decide)

/-- **C2, counterexample.**  In a batch where one page reports quota
exhaustion but an earlier page of the same batch contributed zero items, the
query does *not* return the quota signal `None`: the empty page wins, the
query returns a list, and the calling task is marked complete.  This
falsifies the claim for that batch. -/
theorem C2_counterexample :
    PageRes.rateLimited ∈ (batchPages (maxPagesFor 200) 0).map fetchC2 ∧
    (search_repos gateTrue fetchC2 200).1 = some [] ∧
    ¬ (search_repos gateTrue fetchC2 200).1 = none ∧
    (fetch_top_repos { completed := [] } emptyAgg
        (search_repos gateTrue fetchC2 200).1).2.1.completed =
      [("top_repos")] := by
  exact ⟨by decide, by decide, by decide, by decide⟩

/-- **C2, amended.**  If within one batch a page reports quota exhaustion and
every page result before it in the batch passed through (contributed at least
one item, or was a skipped non-quota error), then the query returns `None`
(the already-collected items are discarded, not partially returned), and the
calling task returns `False` with its completion mark untouched. -/
theorem C2_amended_quota_discards_batch (gate : Nat → Bool)
    (fetch : Nat → PageRes) (maxr maxPages s : Nat) (rest : List Nat)
    (acc : List Repo) (pre post : List PageRes) (st : TaskState) (m : AggMap)
    (hg : gate s = true)
    (hsplit : (batchPages maxPages s).map fetch =
      pre ++ PageRes.rateLimited :: post)
    (hpre : ∀ p ∈ pre, pagePasses p = true)
    (hst : is_task_complete st ("top_repos") = false) :
    (runBatches gate fetch maxr maxPages acc (s :: rest)).1 = none ∧
    (fetch_top_repos st m
        (runBatches gate fetch maxr maxPages acc (s :: rest)).1).1 = false ∧
    (fetch_top_repos st m
        (runBatches gate fetch maxr maxPages acc (s :: rest)).1).2.1 = st := by
  have hp : processResults maxr acc ((batchPages maxPages s).map fetch) =
      ProcOut.early none := by
    rw [hsplit]
    exact processResults_rateLimited maxr pre acc post hpre
  rw [runBatches_step_early gate fetch maxr maxPages s rest acc none hg hp]
  refine ⟨rfl, ?_, ?_⟩ <;> simp [fetch_top_repos, hst]

/-- Closed instance of `C2_amended_quota_discards_batch`. -/
theorem C2_amended_witness :
    (runBatches gateTrue fetchC2W 200 2 [] (0 :: [])).1 = none ∧
    (fetch_top_repos { completed := [] } emptyAgg
        (runBatches gateTrue fetchC2W 200 2 [] (0 :: [])).1).1 = false ∧
    (fetch_top_repos { completed := [] } emptyAgg
        (runBatches gateTrue fetchC2W 200 2 [] (0 :: [])).1).2.1 =
      { completed := [] } :=
  C2_amended_quota_discards_batch gateTrue fetchC2W 200 2 0 [] []
    [PageRes.ok [repoA] 0] [] { completed := [] } emptyAgg rfl (by decide)
    (by decide) (by decide)

theorem pushTag_mem_iff (c : Bool) (t a : String) (l : List String)
    (hne : a ≠ t) : a ∈ pushTag c t l ↔ a ∈ l := by
  unfold pushTag
  split_ifs with h
  · exact Iff.rfl
  · simp [hne]

theorem pushTag_comm (c1 c2 : Bool) (t1 t2 : String) (l : List String)
    (h : t1 = t2 → c1 = c2) :
    (pushTag c1 t1 (pushTag c2 t2 l)).Perm (pushTag c2 t2 (pushTag c1 t1 l)) := by
  by_cases ht : t1 = t2
  · subst ht
    have hc : c1 = c2 := h rfl
    subst hc
    exact List.Perm.refl _
  · have ht2 : t2 ≠ t1 := fun e => ht e.symm
    by_cases m1 : c1 = true ∧ t1 ∈ l <;> by_cases m2 : c2 = true ∧ t2 ∈ l
    · have e1 : pushTag c1 t1 l = l := if_pos m1
      have e2 : pushTag c2 t2 l = l := if_pos m2
      rw [e2, e1, e2]
    · have e1 : pushTag c1 t1 l = l := if_pos m1
      have e2 : pushTag c2 t2 l = l ++ [t2] := if_neg m2
      have eA : pushTag c1 t1 (l ++ [t2]) = l ++ [t2] :=
        if_pos ⟨m1.1, by simp [m1.2]⟩
      rw [e2, e1, eA, e2]
    · have e1 : pushTag c1 t1 l = l ++ [t1] := if_neg m1
      have e2 : pushTag c2 t2 l = l := if_pos m2
      have eB : pushTag c2 t2 (l ++ [t1]) = l ++ [t1] :=
        if_pos ⟨m2.1, by simp [m2.2]⟩
      rw [e2, e1, eB]
    · have e1 : pushTag c1 t1 l = l ++ [t1] := if_neg m1
      have e2 : pushTag c2 t2 l = l ++ [t2] := if_neg m2
      have eC : pushTag c1 t1 (l ++ [t2]) = (l ++ [t2]) ++ [t1] := by
        refine if_neg (fun hm => m1 ⟨hm.1, ?_⟩)
        have hmem := hm.2
        simp only [List.mem_append, List.mem_singleton] at hmem
        rcases hmem with hmem | hmem
        · exact hmem
        · exact absurd hmem ht
      have eD : pushTag c2 t2 (l ++ [t1]) = (l ++ [t1]) ++ [t2] := by
        refine if_neg (fun hm => m2 ⟨hm.1, ?_⟩)
        have hmem := hm.2
        simp only [List.mem_append, List.mem_singleton] at hmem
        rcases hmem with hmem | hmem
        · exact hmem
        · exact absurd hmem ht2
      rw [e2, e1, eC, eD, List.append_assoc l [t2] [t1],
        List.append_assoc l [t1] [t2]]
      exact List.Perm.append_left l (List.Perm.swap t1 t2 [])

theorem pushTag_perm (c : Bool) (t : String) {l1 l2 : List String}
    (h : l1.Perm l2) : (pushTag c t l1).Perm (pushTag c t l2) := by
  unfold pushTag
  by_cases hm : c = true ∧ t ∈ l1
  · rw [if_pos hm, if_pos ⟨hm.1, h.mem_iff.mp hm.2⟩]
    exact h
  · rw [if_neg hm, if_neg (fun hm2 => hm ⟨hm2.1, h.mem_iff.mpr hm2.2⟩)]
    exact h.append_right [t]

theorem append_ne_of_head_ne (p t q : String) (c : Char)
    (hp : p.data.head? = some c) (hq : q.data.head? ≠ some c) : p ++ t ≠ q := by
  intro h
  apply hq
  rw [← h, String.data_append]
  cases hd : p.data with
  | nil => exact absurd hp (by rw [hd]; simp)
  | cons x xs => rw [hd] at hp; exact hp

theorem tagChecked_congr (t1 t2 : FetchTask)
    (h : taskTag t1 = taskTag t2) : taskChecked t1 = taskChecked t2 := by
  cases t1 <;> cases t2 <;> first
    | rfl
    | exact absurd h (by decide)
    | exact absurd h (append_ne_of_head_ne _ _ _ 't' rfl (by decide))
    | exact absurd h (append_ne_of_head_ne _ _ _ 'l' rfl (by decide))
    | exact absurd h (fun e => absurd e.symm
        (append_ne_of_head_ne _ _ _ 't' rfl (by decide)))
    | exact absurd h (fun e => absurd e.symm
        (append_ne_of_head_ne _ _ _ 'l' rfl (by decide)))

theorem entryEquiv_refl (e : RepoEntry) : entryEquiv e e :=
  ⟨List.Perm.refl _, List.Perm.refl _, List.Perm.refl _, rfl, rfl, rfl, rfl, rfl⟩

theorem entryEquiv_trans {e1 e2 e3 : RepoEntry}
    (h1 : entryEquiv e1 e2) (h2 : entryEquiv e2 e3) : entryEquiv e1 e3 :=
  ⟨h1.1.trans h2.1, h1.2.1.trans h2.2.1, h1.2.2.1.trans h2.2.2.1,
   h1.2.2.2.1.trans h2.2.2.2.1, h1.2.2.2.2.1.trans h2.2.2.2.2.1,
   h1.2.2.2.2.2.1.trans h2.2.2.2.2.2.1, h1.2.2.2.2.2.2.1.trans h2.2.2.2.2.2.2.1,
   h1.2.2.2.2.2.2.2.trans h2.2.2.2.2.2.2.2⟩

theorem touch_source (t : FetchTask) (r : Repo) (e : RepoEntry) :
    (touchEntry t r e).source = pushTag (taskChecked t) (taskTag t) e.source := by
  cases t <;> rfl

theorem touch_topics (t : FetchTask) (r : Repo) (e : RepoEntry) :
    (touchEntry t r e).topics = topicsUpd t e.topics := by
  cases t <;> rfl

theorem touch_languages (t : FetchTask) (r : Repo) (e : RepoEntry) :
    (touchEntry t r e).languages = languagesUpd t e.languages := by
  cases t <;> rfl

theorem touch_gsoc (t : FetchTask) (r : Repo) (e : RepoEntry) :
    (touchEntry t r e).is_gsoc = (e.is_gsoc || derivesGsoc t) := by
  cases t <;> simp [touchEntry, derivesGsoc]

theorem touch_hack (t : FetchTask) (r : Repo) (e : RepoEntry) :
    (touchEntry t r e).is_hacktoberfest = (e.is_hacktoberfest || derivesHack t) := by
  cases t <;> simp [touchEntry, derivesHack]

theorem touch_gfi (t : FetchTask) (r : Repo) (e : RepoEntry) :
    (touchEntry t r e).has_good_first_issues =
      (e.has_good_first_issues || derivesGfi t) := by
  cases t <;> simp [touchEntry, derivesGfi]

theorem touch_und (t : FetchTask) (r : Repo) (e : RepoEntry) :
    (touchEntry t r e).is_underrated =
      (if derivesUnd t then derivedUnderrated r else e.is_underrated) := by
  cases t <;> simp [touchEntry, derivesUnd]

theorem touch_raw (t : FetchTask) (r : Repo) (e : RepoEntry) :
    (touchEntry t r e).raw_data = e.raw_data := by
  cases t <;> rfl

theorem topicsUpd_comm (t1 t2 : FetchTask) (l : List String) :
    (topicsUpd t1 (topicsUpd t2 l)).Perm (topicsUpd t2 (topicsUpd t1 l)) := by
  cases t1 <;> cases t2 <;>
    first
      | exact List.Perm.refl _
      | exact pushTag_comm true true _ _ l (fun _ => rfl)

theorem languagesUpd_comm (t1 t2 : FetchTask) (l : List String) :
    (languagesUpd t1 (languagesUpd t2 l)).Perm
      (languagesUpd t2 (languagesUpd t1 l)) := by
  cases t1 <;> cases t2 <;>
    first
      | exact List.Perm.refl _
      | exact pushTag_comm true true _ _ l (fun _ => rfl)

theorem topicsUpd_perm (t : FetchTask) {l1 l2 : List String} (h : l1.Perm l2) :
    (topicsUpd t l1).Perm (topicsUpd t l2) := by
  cases t <;> first | exact h | exact pushTag_perm true _ h

theorem languagesUpd_perm (t : FetchTask) {l1 l2 : List String}
    (h : l1.Perm l2) : (languagesUpd t l1).Perm (languagesUpd t l2) := by
  cases t <;> first | exact h | exact pushTag_perm true _ h

theorem derivesUnd_eq (t : FetchTask) (h : derivesUnd t = true) :
    t = FetchTask.underrated := by
  cases t <;> first | rfl | simp [derivesUnd] at h

/-- Updating one entry under two ingestions commutes, up to reordering of the
tag lists, provided two underrated-task ingestions derive the same flag. -/
theorem touchEntry_comm (t1 t2 : FetchTask) (r1 r2 : Repo) (e : RepoEntry)
    (hU : t1 = FetchTask.underrated → t2 = FetchTask.underrated →
      derivedUnderrated r1 = derivedUnderrated r2) :
    entryEquiv (touchEntry t1 r1 (touchEntry t2 r2 e))
      (touchEntry t2 r2 (touchEntry t1 r1 e)) := by
  refine ⟨?_, ?_, ?_, ?_, ?_, ?_, ?_, ?_⟩
  · rw [touch_source, touch_source, touch_source, touch_source]
    exact pushTag_comm _ _ _ _ e.source (tagChecked_congr t1 t2)
  · rw [touch_topics, touch_topics, touch_topics, touch_topics]
    exact topicsUpd_comm t1 t2 e.topics
  · rw [touch_languages, touch_languages, touch_languages, touch_languages]
    exact languagesUpd_comm t1 t2 e.languages
  · rw [touch_gsoc, touch_gsoc, touch_gsoc, touch_gsoc]
    cases e.is_gsoc <;> cases derivesGsoc t1 <;> cases derivesGsoc t2 <;> rfl
  · rw [touch_hack, touch_hack, touch_hack, touch_hack]
    cases e.is_hacktoberfest <;> cases derivesHack t1 <;>
      cases derivesHack t2 <;> rfl
  · rw [touch_gfi, touch_gfi, touch_gfi, touch_gfi]
    cases e.has_good_first_issues <;> cases derivesGfi t1 <;>
      cases derivesGfi t2 <;> rfl
  · rw [touch_und, touch_und, touch_und, touch_und]
    by_cases h1 : derivesUnd t1 = true <;>
      by_cases h2 : derivesUnd t2 = true <;> simp [h1, h2]
    exact hU (derivesUnd_eq t1 h1) (derivesUnd_eq t2 h2)
  · rw [touch_raw, touch_raw, touch_raw, touch_raw]

/-- `touchEntry` sends equivalent entries to equivalent entries. -/
theorem touchEntry_equiv (t : FetchTask) (r : Repo) {e1 e2 : RepoEntry}
    (h : entryEquiv e1 e2) :
    entryEquiv (touchEntry t r e1) (touchEntry t r e2) := by
  obtain ⟨hs, htp, hlg, hg, hh, hf, hu, hr⟩ := h
  refine ⟨?_, ?_, ?_, ?_, ?_, ?_, ?_, ?_⟩
  · rw [touch_source, touch_source]; exact pushTag_perm _ _ hs
  · rw [touch_topics, touch_topics]; exact topicsUpd_perm t htp
  · rw [touch_languages, touch_languages]; exact languagesUpd_perm t hlg
  · rw [touch_gsoc, touch_gsoc, hg]
  · rw [touch_hack, touch_hack, hh]
  · rw [touch_gfi, touch_gfi, hf]
  · rw [touch_und, touch_und, hu]
  · rw [touch_raw, touch_raw, hr]

theorem optEquiv_refl (o : Option RepoEntry) : optEquiv o o := by
  cases o with
  | none => trivial
  | some e => exact entryEquiv_refl e

theorem optEquiv_trans {o1 o2 o3 : Option RepoEntry}
    (h1 : optEquiv o1 o2) (h2 : optEquiv o2 o3) : optEquiv o1 o3 := by
  cases o1 <;> cases o2 <;> cases o3 <;> simp [optEquiv] at * <;>
    exact entryEquiv_trans h1 h2

theorem mapEquiv_refl (m : AggMap) : mapEquiv m m := fun k => optEquiv_refl (m k)

theorem mapEquiv_trans {m1 m2 m3 : AggMap} (h1 : mapEquiv m1 m2)
    (h2 : mapEquiv m2 m3) : mapEquiv m1 m3 :=
  fun k => optEquiv_trans (h1 k) (h2 k)

theorem ingestOne_congr (i : Ingestion) {m1 m2 : AggMap}
    (h : mapEquiv m1 m2) : mapEquiv (ingestOne m1 i) (ingestOne m2 i) := by
  intro k
  unfold ingestOne
  by_cases hk : k = i.repo.full_name
  · rw [if_pos hk, if_pos hk]
    have hkey := h i.repo.full_name
    cases hm1 : m1 i.repo.full_name with
    | none =>
      cases hm2 : m2 i.repo.full_name with
      | none => exact entryEquiv_refl _
      | some e2 => rw [hm1, hm2] at hkey; exact absurd hkey (by simp [optEquiv])
    | some e1 =>
      cases hm2 : m2 i.repo.full_name with
      | none => rw [hm1, hm2] at hkey; exact absurd hkey (by simp [optEquiv])
      | some e2 =>
        rw [hm1, hm2] at hkey
        exact touchEntry_equiv i.task i.repo hkey
  · rw [if_neg hk, if_neg hk]
    exact h k

theorem ingestOne_eval (m : AggMap) (i : Ingestion) (k : String) :
    ingestOne m i k =
      if k = i.repo.full_name then
        some (touchEntry i.task i.repo
          ((m i.repo.full_name).getD (emptyEntry i.repo)))
      else m k := by
  unfold ingestOne
  by_cases hk : k = i.repo.full_name
  · rw [if_pos hk, if_pos hk]
    cases m i.repo.full_name <;> rfl
  · rw [if_neg hk, if_neg hk]

/-- Applying two ingestions in either order yields equivalent maps, provided
ingestions that share a key carry the same payload. -/
theorem ingestOne_swap (m : AggMap) (i1 i2 : Ingestion)
    (hcoh : i1.repo.full_name = i2.repo.full_name → i1.repo = i2.repo) :
    mapEquiv (ingestOne (ingestOne m i1) i2) (ingestOne (ingestOne m i2) i1) := by
  intro k
  by_cases hk12 : i1.repo.full_name = i2.repo.full_name
  · have hrep : i1.repo = i2.repo := hcoh hk12
    by_cases hk : k = i1.repo.full_name
    · have hk2 : k = i2.repo.full_name := hk.trans hk12
      simp only [ingestOne_eval, hrep, hk2, if_pos rfl, Option.getD_some]
      exact touchEntry_comm i2.task i1.task i2.repo i2.repo _ (fun _ _ => rfl)
    · have hk2 : ¬ k = i2.repo.full_name := fun e => hk (e.trans hk12.symm)
      simp only [ingestOne_eval, if_neg hk, if_neg hk2]
      exact optEquiv_refl _
  · by_cases hk1 : k = i1.repo.full_name
    · have hk2 : ¬ k = i2.repo.full_name := fun e => hk12 (hk1 ▸ e)
      simp only [ingestOne_eval, if_neg hk2, if_pos hk1, if_neg hk12,
        if_neg (fun e => hk12 e.symm : ¬ i2.repo.full_name = i1.repo.full_name)]
      exact optEquiv_refl _
    · by_cases hk2 : k = i2.repo.full_name
      · simp only [ingestOne_eval, if_pos hk2, if_neg hk1, if_neg hk12,
          if_neg (fun e => hk12 e.symm : ¬ i2.repo.full_name = i1.repo.full_name)]
        exact optEquiv_refl _
      · simp only [ingestOne_eval, if_neg hk1, if_neg hk2]
        exact optEquiv_refl _

theorem foldl_ingest_congr (l : List Ingestion) :
    ∀ {m1 m2 : AggMap}, mapEquiv m1 m2 →
      mapEquiv (l.foldl ingestOne m1) (l.foldl ingestOne m2) := by
  induction l with
  | nil => intro m1 m2 h; exact h
  | cons i rest ih =>
    intro m1 m2 h
    simp only [List.foldl_cons]
    exact ih (ingestOne_congr i h)

theorem foldl_ingest_perm :
    ∀ {l1 l2 : List Ingestion}, l1.Perm l2 →
      (∀ i ∈ l1, ∀ j ∈ l1,
        i.repo.full_name = j.repo.full_name → i.repo = j.repo) →
      ∀ m, mapEquiv (l1.foldl ingestOne m) (l2.foldl ingestOne m) := by
  intro l1 l2 hp
  induction hp with
  | nil => intro _ m; exact mapEquiv_refl _
  | cons x h ih =>
    intro hcoh m
    simp only [List.foldl_cons]
    exact ih (fun i hi j hj =>
      hcoh i (List.mem_cons_of_mem x hi) j (List.mem_cons_of_mem x hj)) _
  | swap x y l =>
    intro hcoh m
    simp only [List.foldl_cons]
    refine foldl_ingest_congr l ?_
    exact ingestOne_swap m y x
      (hcoh y (List.mem_cons_self y _) x
        (List.mem_cons_of_mem y (List.mem_cons_self x _)))
  | trans h1 h2 ih1 ih2 =>
    intro hcoh m
    exact mapEquiv_trans (ih1 hcoh m)
      (ih2 (fun i hi j hj =>
        hcoh i (h1.mem_iff.mpr hi) j (h1.mem_iff.mpr hj)) m)

/-- **C3, counterexample.**  Swapping two ingestions of the same entity by
two different tasks changes the final entity map: the `source` tag list
records the two task names in arrival order (`top_starred` before `gsoc` in
one order, after it in the other), so the two final maps are *not* equal. -/
theorem C3_counterexample :
    ([ingTopA, ingGsocA] : List Ingestion).Perm [ingGsocA, ingTopA] ∧
    ¬ ([ingTopA, ingGsocA].foldl ingestOne emptyAgg =
        [ingGsocA, ingTopA].foldl ingestOne emptyAgg) := by
  constructor
  · exact List.Perm.swap ingGsocA ingTopA []
  · intro h
    have h2 := congrFun h ("alice/alpha")
    exact absurd h2 (by decide)

/-- **C3, amended.**  For every two permutations of the same finite list of
`(task, repo)` ingestions in which ingestions sharing an identity key carry
identical payloads, the final aggregator maps agree at every key up to
reordering of the `source`, `topics` and `languages` lists: same key set,
same raw payload and identical boolean facet flags. -/
theorem C3_amended_ingest_order_independent (l1 l2 : List Ingestion)
    (hp : l1.Perm l2)
    (hcoh : ∀ i ∈ l1, ∀ j ∈ l1,
      i.repo.full_name = j.repo.full_name → i.repo = j.repo) :
    mapEquiv (l1.foldl ingestOne emptyAgg) (l2.foldl ingestOne emptyAgg) :=
  foldl_ingest_perm hp hcoh emptyAgg

/-- Closed instance of `C3_amended_ingest_order_independent` at the swapped
pair of the counterexample, observed at the shared key. -/
theorem C3_amended_witness :
    optEquiv (([ingTopA, ingGsocA].foldl ingestOne emptyAgg) ("alice/alpha"))
      (([ingGsocA, ingTopA].foldl ingestOne emptyAgg) ("alice/alpha")) :=
  C3_amended_ingest_order_independent [ingTopA, ingGsocA] [ingGsocA, ingTopA]
    (List.Perm.swap ingGsocA ingTopA []) (by decide) ("alice/alpha")

theorem foldl_ingest_same_key (e : Repo) :
    ∀ (ts : List FetchTask) (m : AggMap),
      ((ts.map (fun t => ({ task := t, repo := e } : Ingestion))).foldl
        ingestOne m) e.full_name = entryFold e (m e.full_name) ts := by
  intro ts
  induction ts with
  | nil => intro m; rfl
  | cons t rest ih =>
    intro m
    simp only [List.map_cons, List.foldl_cons, entryFold]
    rw [ih (ingestOne m { task := t, repo := e })]
    congr 1
    rw [ingestOne_eval]
    rw [if_pos rfl]

theorem entryFold_gsoc (e : Repo) :
    ∀ (ts : List FetchTask) (en : RepoEntry),
      (entryFold e (some en) ts).map RepoEntry.is_gsoc =
        some (en.is_gsoc || ts.any derivesGsoc) := by
  intro ts
  induction ts with
  | nil => intro en; simp [entryFold]
  | cons t rest ih =>
    intro en
    simp only [entryFold, Option.getD_some]
    rw [ih (touchEntry t e en)]
    rw [touch_gsoc]
    simp [Bool.or_assoc]

theorem entryFold_hack (e : Repo) :
    ∀ (ts : List FetchTask) (en : RepoEntry),
      (entryFold e (some en) ts).map RepoEntry.is_hacktoberfest =
        some (en.is_hacktoberfest || ts.any derivesHack) := by
  intro ts
  induction ts with
  | nil => intro en; simp [entryFold]
  | cons t rest ih =>
    intro en
    simp only [entryFold, Option.getD_some]
    rw [ih (touchEntry t e en), touch_hack]
    simp [Bool.or_assoc]

theorem entryFold_gfi (e : Repo) :
    ∀ (ts : List FetchTask) (en : RepoEntry),
      (entryFold e (some en) ts).map RepoEntry.has_good_first_issues =
        some (en.has_good_first_issues || ts.any derivesGfi) := by
  intro ts
  induction ts with
  | nil => intro en; simp [entryFold]
  | cons t rest ih =>
    intro en
    simp only [entryFold, Option.getD_some]
    rw [ih (touchEntry t e en), touch_gfi]
    simp [Bool.or_assoc]

theorem entryFold_und (e : Repo) :
    ∀ (ts : List FetchTask) (en : RepoEntry),
      (entryFold e (some en) ts).map RepoEntry.is_underrated =
        some (if ts.any derivesUnd then derivedUnderrated e
          else en.is_underrated) := by
  intro ts
  induction ts with
  | nil => intro en; simp [entryFold]
  | cons t rest ih =>
    intro en
    simp only [entryFold, Option.getD_some]
    rw [ih (touchEntry t e en), touch_und]
    simp only [List.any_cons]
    by_cases h1 : derivesUnd t = true <;>
      by_cases h2 : rest.any derivesUnd = true <;> simp [h1, h2]

theorem aggAfter_eq (e : Repo) (ts : List FetchTask) :
    aggAfter e ts = entryFold e none ts := by
  unfold aggAfter
  rw [foldl_ingest_same_key]
  rfl

theorem any_derivesUnd_and (ts : List FetchTask) (c : Bool) :
    ts.any (fun t => derivesUnd t && c) = (ts.any derivesUnd && c) := by
  induction ts with
  | nil => simp
  | cons t rest ih =>
    simp only [List.any_cons, ih]
    cases derivesUnd t <;> cases c <;> simp

/-- **C4.** For a fixed entity ingested by any sequence of tasks, each stored
boolean facet equals the OR of the per-ingestion derived values: `is_gsoc`,
`is_hacktoberfest` and `has_good_first_issues` are true exactly when some
ingestion came from the corresponding task, and `is_underrated` is true
exactly when some underrated-task ingestion derived it (so a flag set once
stays set across later ingestions that do not re-derive it).  The last
conjunct is the spec's scenario: ingesting `{id:1, tags:[A]}` then
`{id:1, tags:[B], facet_underrated:true}` yields tags `[A, B]` with the
underrated facet true. -/
theorem C4_boolean_facets_or_combined (e : Repo) (ts : List FetchTask) :
    ((aggAfter e ts).map RepoEntry.is_gsoc =
      if ts = [] then none else some (ts.any derivesGsoc)) ∧
    ((aggAfter e ts).map RepoEntry.is_hacktoberfest =
      if ts = [] then none else some (ts.any derivesHack)) ∧
    ((aggAfter e ts).map RepoEntry.has_good_first_issues =
      if ts = [] then none else some (ts.any derivesGfi)) ∧
    ((aggAfter e ts).map RepoEntry.is_underrated =
      if ts = [] then none else
        some (ts.any (fun t => derivesUnd t && derivedUnderrated e))) ∧
    aggAfter repoA [FetchTask.topic ("a"), FetchTask.underrated] =
      some { source := [("topic_a"), ("underrated")], is_gsoc := false,
             is_hacktoberfest := false, has_good_first_issues := false,
             is_underrated := true, topics := [("a")], languages := [],
             raw_data := repoA } := by
  refine ⟨?_, ?_, ?_, ?_, by decide⟩
  · cases ts with
    | nil => simp [aggAfter_eq, entryFold]
    | cons t rest =>
      rw [aggAfter_eq]
      simp only [entryFold, Option.getD_none]
      rw [entryFold_gsoc, touch_gsoc]
      simp [emptyEntry, List.any_cons]
  · cases ts with
    | nil => simp [aggAfter_eq, entryFold]
    | cons t rest =>
      rw [aggAfter_eq]
      simp only [entryFold, Option.getD_none]
      rw [entryFold_hack, touch_hack]
      simp [emptyEntry, List.any_cons]
  · cases ts with
    | nil => simp [aggAfter_eq, entryFold]
    | cons t rest =>
      rw [aggAfter_eq]
      simp only [entryFold, Option.getD_none]
      rw [entryFold_gfi, touch_gfi]
      simp [emptyEntry, List.any_cons]
  · cases ts with
    | nil => simp [aggAfter_eq, entryFold]
    | cons t rest =>
      rw [aggAfter_eq]
      simp only [entryFold, Option.getD_none]
      rw [entryFold_und, touch_und]
      simp only [any_derivesUnd_and, List.any_cons]
      by_cases h1 : derivesUnd t = true <;>
        by_cases h2 : rest.any derivesUnd = true <;>
          simp [h1, h2, emptyEntry]

/-- **C1.**  `fetch_top_repos` persists the completion mark *before* the data
file: crashing between the two steps (crash point `n = 1`) leaves a fresh
process observing `top_repos` marked complete while the just-fetched entity
is absent from the data file — the claimed invariant is violated at that
crash point (only after both steps, `n = 2`, is the entity durable). -/
theorem C1_crash_between_mark_and_save_violates_invariant :
    ("top_repos") ∈ (persistUpTo (topTaskPersistSteps [("alice/alpha")]) 1
      { stateTasks := [], dataRepos := [] }).stateTasks ∧
    ¬ ("alice/alpha") ∈ (persistUpTo (topTaskPersistSteps [("alice/alpha")]) 1
      { stateTasks := [], dataRepos := [] }).dataRepos ∧
    ("alice/alpha") ∈ (persistUpTo (topTaskPersistSteps [("alice/alpha")]) 2
      { stateTasks := [], dataRepos := [] }).dataRepos := by decide

/-- **C8, counterexample.**  A failing progress-state write raises inside
`save_state`, but the handler absorbs it: `save_state` returns normally and
the process keeps operating on a state it could not durably record — the
claim that every persistence failure aborts the process is false. -/
theorem C8_counterexample :
    writeJson false = Except.error ("IOError") ∧
    save_state false = Except.ok () := ⟨rfl, rfl⟩

/-- **C8, amended.**  A failure writing the dataset output file propagates
out of `save_current_data` (fatal), but a failure writing the progress state
is caught inside `save_state`, logged, and execution continues. -/
theorem C8_amended_only_output_write_fatal :
    (∀ writeOk : Bool, save_state writeOk = Except.ok ()) ∧
    save_current_data true false = Except.error ("IOError") ∧
    (∀ writeOk : Bool, save_current_data false writeOk = Except.ok ()) := by
  refine ⟨fun writeOk => ?_, rfl, fun _ => rfl⟩
  cases writeOk <;> rfl

/-- **C7.**  The quota gate refreshes the cached count exactly when the cache
is below the low-water mark 10, and signals STOP (returns `False`) exactly
when that refresh succeeded with a remaining count below the hard floor 5;
in every other case (cache ≥ 10, refresh ≥ 5, non-200 refresh, refresh
exception) it signals CONTINUE. -/
theorem C7_quota_gate_characterization (cached : Nat) (resp : RateResp) :
    ((wait_for_rate_limit cached resp).2.2 = true ↔ cached < 10) ∧
    ((wait_for_rate_limit cached resp).2.1 = false ↔
      (cached < 10 ∧ ∃ n, resp = RateResp.ok n ∧ n < 5)) := by
  unfold wait_for_rate_limit check_rate_limit
  by_cases h : cached < 10
  · rw [if_pos h]
    cases resp with
    | ok n =>
      dsimp only
      by_cases hn : n < 5
      · rw [if_pos hn]
        simp [h, hn]
      · rw [if_neg hn]
        simp [h, hn]
    | httpErr => simp [h]
    | exc => simp [h]
  · rw [if_neg h]
    simp [h]

/-- **C6, counterexample.**  An entity whose three sub-fetches are all
quota-exhausted does *not* stop the enrichment run: `enrich_repo_data_single`
returns an (empty) record rather than `None` — only the entry gate produces
`None` — so the run attaches an empty record and continues with the next
entity, finishing normally. -/
theorem C6_counterexample :
    (allExhausted.details = none ∧ allExhausted.languages = none ∧
      allExhausted.readme = none) ∧
    ¬ enrich_repo_data_single true allExhausted = none ∧
    (enrich_all_repos [(("r1"), true, allExhausted),
        (("r2"), true, subOkDetails)] []).2 = RunEnd.finished ∧
    (enrich_all_repos [(("r1"), true, allExhausted),
        (("r2"), true, subOkDetails)] []).1.map Prod.fst =
      [("r1"), ("r2")] := by decide

/-- **C6, amended.**  A single quota-exhausted sub-fetch (here: readme)
leaves only its own fields absent while the other sub-results are populated;
an entity whose sub-fetches are all exhausted yields an empty enrichment
record and the run continues; the run stops — persisting the entities
enriched so far and returning control — exactly when the per-entity quota
gate (`wait_for_rate_limit`) signals stop before the sub-fetches are
issued. -/
theorem C6_amended_partial_enrichment_gate_stop (d : DetailsData)
    (lb : List (String × Nat)) (rest : List (String × Bool × SubFetches))
    (acc : List (String × Enriched)) (nm : String) (f : SubFetches) :
    (enrich_repo_data_single true
        { details := some d, languages := some lb, readme := none } =
      some { detailed_info := some d, primary_language := some d.language,
             license := some d.license, topics := some d.topics,
             languages_breakdown := some lb, readme_url := none,
             readme_name := none, readme_content := none }) ∧
    (enrich_all_repos ((nm, true, allExhausted) :: rest) acc =
      enrich_all_repos rest (acc ++
        [(nm, { detailed_info := none, primary_language := none,
                license := none, topics := none, languages_breakdown := none,
                readme_url := none, readme_name := none,
                readme_content := none })])) ∧
    (enrich_all_repos ((nm, false, f) :: rest) acc =
      (acc, RunEnd.rateStop)) :=
  ⟨rfl, rfl, rfl⟩
